import Mathlib

/-!
Verification of the stage/pipeline composition layer of ymp
(`src/ymp/stage/pipeline.py`).

The embedding is a shallow functional model of the Python code:

* `Pipeline.init` embeds `Pipeline.__init__` (pipeline.py lines 21-35);
* `outputMapLoop` embeds the `while stage_names:` output-map merge loop,
  written over the reversed stage-name list (popping the last element of
  the Python working list corresponds to taking the head of the reversed
  list, and the joined `path` is computed before the pop);
* `resolveProject` embeds the `project` property (pipeline.py lines 37-48),
  indexed by fuel because the Python recursion through `cfg.pipelines`
  is unbounded (`none` = the recursion has not terminated within the
  given number of nested pipeline dereferences);
* `Pipeline.get_path` and `Pipeline.outputs` embed the same-named members.

`StageStack` is not among the excerpted sources; its `get` and
`_find_stage` members are modelled from the spec where used (see the
doc comments).  Python dictionaries are modelled as association lists
with insertion at the tail (Python dicts preserve insertion order and
append new keys at the end) and first-match lookup.
-/

namespace Ymp

/-- A leaf stage: a name and its fixed declared set of output filenames
(spec, section 3: "Stage (leaf): a name, a fixed declared set of output
filenames it is capable of producing"). -/
structure Stage where
  name : String
  outputs : List String
deriving DecidableEq

/-- A project: external entity owned by the configuration subsystem;
only its identity matters here. -/
structure Project where
  name : String
deriving DecidableEq

/-- The error raised by the code: `YmpConfigError(chain, msg)`
(pipeline.py line 48), plus the Python `IndexError` that `self.stages[0]`
would raise on an empty list. -/
inductive YmpError where
  | configError (chain : List String) (msg : String)
  | indexError
deriving DecidableEq

/-- `".".join(names)` (pipeline.py lines 24 and 28). -/
def joinDot (names : List String) : String :=
  String.intercalate "." names

/-- Association-list lookup with decidable string equality: the model of
Python `dict` lookup and `in` tests. First match wins. -/
def alookup {α : Type} : List (String × α) → String → Option α
  | [], _ => none
  | (k, v) :: rest, f => if f = k then some v else alookup rest f

/-- A memoized stack object.  `instId` is the instance identity: each
construction allocates a fresh one, so two stacks with equal `instId`
(allocated by the same memo table) are the identical instance. -/
structure StageStack where
  key : String
  instId : Nat
deriving DecidableEq

/-- The StageStack memoization table of one configuration lifetime:
chain key to instance, plus the counter producing fresh instance
identities. -/
structure StackMemo where
  table : List (String × StageStack)
  fresh : Nat
deriving DecidableEq

/-- Modelled from the spec: `StageStack.get(chain_key)` — the StageStack
class is not among the excerpted sources.  Per spec section 4.1 it
"returns the memoized stack for `chain_key`, constructing it on first
request" with referential identity on repeated calls, and per the
edge-case policy "an empty chain is invalid (fails with a configuration
error)"; the empty chain's key is the empty string. -/
def StageStack.get (m : StackMemo) (key : String) :
    Except YmpError (StackMemo × StageStack) :=
  if key = "" then
    .error (.configError [] "Empty stage chain")
  else
    match alookup m.table key with
    | some st => .ok (m, st)
    | none =>
      .ok (⟨(key, ⟨key, m.fresh⟩) :: m.table, m.fresh + 1⟩, ⟨key, m.fresh⟩)

/-- The output map: filename → path, a Python dict modelled as an
insertion-ordered association list. -/
abbrev OutputMap := List (String × String)

/-- `if fname not in self.output_map: self.output_map[fname] = path`
(pipeline.py lines 34-35): a Python dict adds a new key at the end. -/
def insertIfAbsent (m : OutputMap) (fname path : String) : OutputMap :=
  if (alookup m fname).isSome then m else m ++ [(fname, path)]

/-- `for fname in stage.outputs:` body (pipeline.py lines 33-35). -/
def insertOutputs (outs : List String) (path : String) (m : OutputMap) :
    OutputMap :=
  outs.foldl (fun acc f => insertIfAbsent acc f path) m

/-- The `while stage_names:` loop of `Pipeline.__init__` (pipeline.py
lines 27-35), written over the reversed working list: Python pops the
last element each iteration, which is the head of the reversed list, and
the `path` is the dot-join of the working list before the pop.  The
stage lookup `self.stagestack._find_stage(...)` is abstracted as the
total function `find`; per spec section 4.1 `find_stage` "returns 'not
found' (never raises) when no stage claims the given segment", which the
type `String → Option Stage` models. -/
def outputMapLoop (find : String → Option Stage) :
    List String → OutputMap → OutputMap
  | [], m => m
  | last :: revRest, m =>
    outputMapLoop find revRest
      (match find last with
       | none => m
       | some st =>
         insertOutputs st.outputs (joinDot ((last :: revRest).reverse)) m)

/-- The output map built by `Pipeline.__init__` for a configured
stage-name list: the loop starts from `stage_names = list(self.stages)`
(a fresh copy) and an empty dict. -/
def pipelineOutputMap (find : String → Option Stage)
    (stages : List String) : OutputMap :=
  outputMapLoop find stages.reverse []

/-- A Pipeline object after construction: the fields `__init__`
populates (`self.dir`-based `stamp` is out of scope of the claims). -/
structure Pipeline where
  name : String
  stages : List String
  stagestack : StageStack
  output_map : OutputMap
deriving DecidableEq

/-- `Pipeline.__init__(name, cfg)` (pipeline.py lines 21-35):
`self.stages = cfg`; `self.stagestack = StageStack.get(".".join(self.stages))`;
then the output-map merge loop over a fresh copy of the list.  An
exception from `StageStack.get` propagates out of the constructor. -/
def Pipeline.init (find : String → Option Stage) (memo : StackMemo)
    (name : String) (cfg : List String) :
    Except YmpError (StackMemo × Pipeline) :=
  match StageStack.get memo (joinDot cfg) with
  | .error e => .error e
  | .ok (memo', ss) =>
    .ok (memo', { name := name, stages := cfg, stagestack := ss,
                  output_map := pipelineOutputMap find cfg })

/-- The configuration registries read by the `project` property
(`ymp.get_config()`): project registry and pipeline registry.  The
pipeline registry maps a pipeline name to that pipeline's configured
stage chain — the only part of a registered Pipeline object that
`cfg.pipelines[name].project` reads. -/
structure Config where
  projects : List (String × Project)
  pipelines : List (String × List String)
deriving DecidableEq

/-- The `project` property (pipeline.py lines 37-48) on a stage chain:
`if self.stages[0] in cfg.projects: return cfg.projects[self.stages[0]]`,
`if self.stages[0] in cfg.pipelines: return cfg.pipelines[self.stages[0]].project`,
else `raise YmpConfigError(self.stages, "Pipeline must start with project")`.
Fuel bounds the nested pipeline dereferences; `none` means the Python
recursion has not returned within that bound (it is unbounded in the
source).  `stages[0]` on an empty list is Python's `IndexError`. -/
def resolveProject (cfg : Config) : Nat → List String →
    Option (Except YmpError Project)
  | 0, _ => none
  | fuel + 1, stages =>
    match stages with
    | [] => some (.error .indexError)
    | s0 :: _ =>
      match alookup cfg.projects s0 with
      | some proj => some (.ok proj)
      | none =>
        match alookup cfg.pipelines s0 with
        | some chain => resolveProject cfg fuel chain
        | none =>
          some (.error (.configError stages "Pipeline must start with project"))

/-- `Pipeline.project` as a property of a constructed Pipeline. -/
def Pipeline.project (cfg : Config) (fuel : Nat) (p : Pipeline) :
    Option (Except YmpError Project) :=
  resolveProject cfg fuel p.stages

/-- `Pipeline.get_path(self, suffix=None): return self.name`
(pipeline.py lines 50-51).  The suffix argument is not read. -/
def Pipeline.get_path (p : Pipeline) (_suffix : Option String) : String :=
  p.name

/-- `Pipeline.outputs: return list(self.output_map.keys())`
(pipeline.py lines 53-55). -/
def Pipeline.outputs (p : Pipeline) : List String :=
  p.output_map.map Prod.fst

/-- Specification-side definition (spec sections 4.2 and 8), over the
reversed chain: scanning from the last stage toward the first, the path
recorded for filename `f` is the dot-joined chain ending at the
position closest to the end whose resolved stage declares `f`; no such
position means `f` is absent from the output map. -/
def tailWinsPathRev (find : String → Option Stage) (f : String) :
    List String → Option String
  | [] => none
  | last :: revRest =>
    match find last with
    | some st =>
      if f ∈ st.outputs then some (joinDot ((last :: revRest).reverse))
      else tailWinsPathRev find f revRest
    | none => tailWinsPathRev find f revRest

/-- Specification-side definition: the path the tail-wins rule assigns
to filename `f` for the (unreversed) chain. -/
def tailWinsPath (find : String → Option Stage) (stages : List String)
    (f : String) : Option String :=
  tailWinsPathRev find f stages.reverse

/-- All output filenames declared by the resolvable positions of the
reversed chain (a position whose `find` fails contributes nothing). -/
def declaredOutputs (find : String → Option Stage) :
    List String → List String
  | [] => []
  | last :: revRest =>
    (match find last with
     | some st => st.outputs
     | none => []) ++ declaredOutputs find revRest

/-- Run one `StageStack.get` for its memo-table effect only; an error
leaves the table unchanged. -/
def applyGet (m : StackMemo) (key : String) : StackMemo :=
  match StageStack.get m key with
  | .error _ => m
  | .ok (m', _) => m'

/-- Run a sequence of `StageStack.get` calls for their memo-table
effects: an arbitrary rest of one configuration lifetime. -/
def applyGets (m : StackMemo) (keys : List String) : StackMemo :=
  keys.foldl applyGet m

/-- A self-rooted pipeline registry: pipeline `"p"` declares chain
`["p"]`, so its project resolution delegates to itself. -/
def cycCfg : Config :=
  ⟨[], [("p", ["p"])]⟩

/-- A constructed Pipeline object for the self-rooted pipeline `"p"`. -/
def cycPipeline : Pipeline :=
  ⟨"p", ["p"], ⟨"p", 0⟩, []⟩

/-- A stage registry for concrete examples: two registered stages,
neither a project nor a pipeline name. -/
def exFind : String → Option Stage
  | "trim" => some ⟨"trim", ["reads.fq"]⟩
  | "assemble" => some ⟨"assemble", ["contigs.fa"]⟩
  | _ => none

/-- A configuration for concrete examples with no projects and no
pipelines registered. -/
def exCfg : Config :=
  ⟨[], []⟩

/-- Well-formedness of a memo table: every stored stack is stored under
its own chain key.  Holds of the empty table and is preserved by
`StageStack.get`. -/
def StackMemo.WF (m : StackMemo) : Prop :=
  ∀ k s, alookup m.table k = some s → s.key = k

/-- Whether a call returned normally (no exception raised). -/
def isOk {α : Type} : Except YmpError α → Bool
  | .ok _ => true
  | .error _ => false

lemma alookup_isSome_iff {α : Type} (m : List (String × α)) (f : String) :
    (alookup m f).isSome ↔ f ∈ m.map Prod.fst := by
  induction m with
  | nil => simp [alookup]
  | cons kv rest ih =>
    obtain ⟨k, v⟩ := kv
    by_cases h : f = k
    · simp [alookup, h]
    · simp [alookup, h, ih]

lemma alookup_append_single (m : OutputMap) (g f p : String) :
    alookup (m ++ [(f, p)]) g =
      (alookup m g).or (if g = f then some p else none) := by
  induction m with
  | nil => simp [alookup, Option.or]
  | cons kv rest ih =>
    obtain ⟨k, v⟩ := kv
    by_cases h : g = k
    · simp [alookup, h, Option.or]
    · simp [alookup, h, ih]

lemma lookup_insertIfAbsent (m : OutputMap) (f g p : String) :
    alookup (insertIfAbsent m f p) g =
      (alookup m g).or (if g = f then some p else none) := by
  unfold insertIfAbsent
  by_cases hf : (alookup m f).isSome
  · rw [if_pos hf]
    by_cases hgf : g = f
    · subst hgf
      rcases h : alookup m g with _ | v
      · rw [h] at hf; simp at hf
      · simp [Option.or]
    · simp [hgf, Option.or_none]
  · rw [if_neg hf]
    exact alookup_append_single m g f p

lemma lookup_insertOutputs (outs : List String) (path : String) (f : String) :
    ∀ m : OutputMap, alookup (insertOutputs outs path m) f =
      (alookup m f).or (if f ∈ outs then some path else none) := by
  induction outs with
  | nil => intro m; simp [insertOutputs, Option.or_none]
  | cons o rest ih =>
    intro m
    have h1 : insertOutputs (o :: rest) path m
        = insertOutputs rest path (insertIfAbsent m o path) := rfl
    rw [h1, ih, lookup_insertIfAbsent, Option.or_assoc]
    congr 1
    by_cases ho : f = o
    · subst ho; simp [Option.or]
    · by_cases hr : f ∈ rest <;> simp [ho, hr, Option.or]

lemma lookup_outputMapLoop (find : String → Option Stage) (f : String) :
    ∀ (rev : List String) (m : OutputMap),
      alookup (outputMapLoop find rev m) f =
        (alookup m f).or (tailWinsPathRev find f rev) := by
  intro rev
  induction rev with
  | nil => intro m; simp [outputMapLoop, tailWinsPathRev, Option.or_none]
  | cons last revRest ih =>
    intro m
    rcases hf : find last with _ | st
    · simp [outputMapLoop, tailWinsPathRev, hf, ih]
    · rw [show outputMapLoop find (last :: revRest) m
            = outputMapLoop find revRest
                (insertOutputs st.outputs (joinDot ((last :: revRest).reverse)) m)
          from by simp [outputMapLoop, hf]]
      rw [ih, lookup_insertOutputs, Option.or_assoc]
      congr 1
      by_cases hmem : f ∈ st.outputs
      · simp [tailWinsPathRev, hf, hmem, Option.or]
      · simp [tailWinsPathRev, hf, hmem, Option.or]

lemma keys_nodup_insertIfAbsent (m : OutputMap) (f p : String)
    (h : (m.map Prod.fst).Nodup) :
    ((insertIfAbsent m f p).map Prod.fst).Nodup := by
  unfold insertIfAbsent
  by_cases hf : (alookup m f).isSome
  · rwa [if_pos hf]
  · rw [if_neg hf]
    have hnot : f ∉ m.map Prod.fst := by
      rw [← alookup_isSome_iff]; simpa using hf
    simp [List.nodup_append, h, hnot]

lemma keys_nodup_insertOutputs (outs : List String) (path : String) :
    ∀ m : OutputMap, (m.map Prod.fst).Nodup →
      ((insertOutputs outs path m).map Prod.fst).Nodup := by
  induction outs with
  | nil => intro m h; exact h
  | cons o rest ih =>
    intro m h
    exact ih (insertIfAbsent m o path) (keys_nodup_insertIfAbsent m o path h)

lemma keys_nodup_outputMapLoop (find : String → Option Stage) :
    ∀ (rev : List String) (m : OutputMap), (m.map Prod.fst).Nodup →
      ((outputMapLoop find rev m).map Prod.fst).Nodup := by
  intro rev
  induction rev with
  | nil => intro m h; exact h
  | cons last revRest ih =>
    intro m h
    rcases hf : find last with _ | st
    · rw [show outputMapLoop find (last :: revRest) m = outputMapLoop find revRest m
          from by simp [outputMapLoop, hf]]
      exact ih m h
    · rw [show outputMapLoop find (last :: revRest) m
            = outputMapLoop find revRest
                (insertOutputs st.outputs (joinDot ((last :: revRest).reverse)) m)
          from by simp [outputMapLoop, hf]]
      exact ih _ (keys_nodup_insertOutputs st.outputs _ m h)

lemma tailWins_isSome_iff (find : String → Option Stage) (f : String) :
    ∀ rev : List String,
      (tailWinsPathRev find f rev).isSome ↔ f ∈ declaredOutputs find rev := by
  intro rev
  induction rev with
  | nil => simp [tailWinsPathRev, declaredOutputs]
  | cons last revRest ih =>
    rcases hf : find last with _ | st
    · simp [tailWinsPathRev, declaredOutputs, hf, ih]
    · by_cases hmem : f ∈ st.outputs
      · simp [tailWinsPathRev, declaredOutputs, hf, hmem]
      · simp [tailWinsPathRev, declaredOutputs, hf, hmem, ih]

/-- Claim C1: the output map of a Pipeline constructed from an ordered
stage-name list is built from the last stage toward the first with
insert-if-absent, so looking up any filename yields exactly the path of
the declaring position closest to the end of the chain (tail wins,
never an earlier stage's path), as computed by the spec-side
`tailWinsPath`. -/
theorem output_map_tail_wins (find : String → Option Stage)
    (stages : List String) (f : String) :
    alookup (pipelineOutputMap find stages) f = tailWinsPath find stages f := by
  unfold pipelineOutputMap tailWinsPath
  rw [lookup_outputMapLoop]
  simp [alookup, Option.or]

/-- Claim C7: a chain position whose stage lookup returns a negative
result is skipped without raising and without adding any output
entries; the merge simply continues with the remaining positions. -/
theorem unresolved_segment_skipped (find : String → Option Stage)
    (nm : String) (revRest : List String) (m : OutputMap)
    (h : find nm = none) :
    outputMapLoop find (nm :: revRest) m = outputMapLoop find revRest m := by
  simp [outputMapLoop, h]

/-- Witness for claim C7 at a concrete chain: `"proj1"` is not a
registered stage, so the tail position contributes nothing and the
merge continues on the remaining chain. -/
theorem unresolved_segment_skipped_witness :
    exFind "proj1" = none ∧
    outputMapLoop exFind ["proj1", "trim"] [] = outputMapLoop exFind ["trim"] [] :=
  ⟨rfl, unresolved_segment_skipped exFind "proj1" ["trim"] [] rfl⟩

/-- Claim C8: `Pipeline.outputs` is exactly the key list of the output
map; the keys are duplicate-free, a filename is among them exactly when
some resolvable stage of the chain declares it, and their number equals
the number of distinct output filenames declared across all resolvable
stages of the chain. -/
theorem outputs_key_set (find : String → Option Stage) (nm : String)
    (stages : List String) (ss : StageStack) :
    Pipeline.outputs ⟨nm, stages, ss, pipelineOutputMap find stages⟩
      = (pipelineOutputMap find stages).map Prod.fst
    ∧ ((pipelineOutputMap find stages).map Prod.fst).Nodup
    ∧ (∀ f, f ∈ (pipelineOutputMap find stages).map Prod.fst ↔
        f ∈ declaredOutputs find stages.reverse)
    ∧ ((pipelineOutputMap find stages).map Prod.fst).length
        = (declaredOutputs find stages.reverse).dedup.length := by
  have hnodup : ((pipelineOutputMap find stages).map Prod.fst).Nodup :=
    keys_nodup_outputMapLoop find stages.reverse [] (by simp)
  have hmem : ∀ f, f ∈ (pipelineOutputMap find stages).map Prod.fst ↔
      f ∈ declaredOutputs find stages.reverse := by
    intro f
    rw [← alookup_isSome_iff, ← tailWins_isSome_iff]
    unfold pipelineOutputMap
    rw [lookup_outputMapLoop]
    simp [alookup, Option.or]
  refine ⟨rfl, hnodup, hmem, ?_⟩
  have h1 : ((pipelineOutputMap find stages).map Prod.fst).toFinset
      = (declaredOutputs find stages.reverse).toFinset := by
    ext f
    simp only [List.mem_toFinset]
    exact hmem f
  calc ((pipelineOutputMap find stages).map Prod.fst).length
      = ((pipelineOutputMap find stages).map Prod.fst).toFinset.card :=
        (List.toFinset_card_of_nodup hnodup).symm
    _ = (declaredOutputs find stages.reverse).toFinset.card := by rw [h1]
    _ = (declaredOutputs find stages.reverse).dedup.length :=
        List.card_toFinset (declaredOutputs find stages.reverse)

/-- Claim C9: for every Pipeline and every suffix argument value
(including none, the default), `get_path` returns the pipeline's own
name, and the suffix argument has no effect on the result. -/
theorem get_path_is_pipeline_name (p : Pipeline) (suffix : Option String) :
    Pipeline.get_path p suffix = p.name ∧
    Pipeline.get_path p suffix = Pipeline.get_path p none :=
  ⟨rfl, rfl⟩

/-- Claim C6: constructing a Pipeline with an empty stage-name list
fails with a configuration error (the empty chain key is rejected by
the spec-modelled `StageStack.get` that the constructor calls). -/
theorem empty_chain_fails_construction (find : String → Option Stage)
    (memo : StackMemo) (nm : String) :
    Pipeline.init find memo nm [] =
      .error (.configError [] "Empty stage chain") :=
  rfl

/-- Claim C3 (refuted, code bug): for the self-rooted pipeline `"p"`
(chain `["p"]`), `Pipeline.project` never returns — under every
recursion-depth bound it is still delegating, so no `YmpConfigError`
(and no value) is ever produced; the Python source recurses without
bound instead of raising a configuration error. -/
theorem cyclic_project_never_returns :
    ∀ fuel : Nat, Pipeline.project cycCfg fuel cycPipeline = none := by
  intro fuel
  induction fuel with
  | zero => rfl
  | succ n ih =>
    show resolveProject cycCfg (n + 1) ["p"] = none
    rw [show resolveProject cycCfg (n + 1) ["p"]
          = resolveProject cycCfg n ["p"]
        from by simp [resolveProject, cycCfg, alookup]]
    exact ih

/-- Claim C4: project resolution is transitive and terminates under
valid configuration: if pipeline `p2`'s first stage name `n1` is not a
project but is the registered pipeline whose chain starts with `s0`,
and `s0` is the registered project `proj`, then `p2.project`
resolves (within two dereferences) to `proj`, and the inner pipeline's
own resolution returns `proj` directly (within one). -/
theorem project_resolution_transitive (cfg : Config) (fuel : Nat)
    (p2 : Pipeline) (n1 s0 : String) (rest1 rest2 : List String)
    (proj : Project)
    (h2 : p2.stages = n1 :: rest2)
    (hn1proj : alookup cfg.projects n1 = none)
    (hn1pipe : alookup cfg.pipelines n1 = some (s0 :: rest1))
    (hs0 : alookup cfg.projects s0 = some proj) :
    Pipeline.project cfg (fuel + 2) p2 = some (.ok proj) ∧
    resolveProject cfg (fuel + 1) (s0 :: rest1) = some (.ok proj) := by
  constructor
  · show resolveProject cfg (fuel + 2) p2.stages = some (.ok proj)
    rw [h2]
    simp [resolveProject, hn1proj, hn1pipe, hs0]
  · simp [resolveProject, hs0]

/-- Witness for claim C4: project `"proj"`, pipeline `"p1"` rooted at
it, pipeline `"p2"` rooted at `"p1"`; `p2.project` resolves to
`"proj"`. -/
theorem project_resolution_transitive_witness :
    Pipeline.project
        ⟨[("proj", ⟨"proj"⟩)], [("p1", ["proj", "trim"]), ("p2", ["p1", "assemble"])]⟩
        2 ⟨"p2", ["p1", "assemble"], ⟨"p1.assemble", 0⟩, []⟩
      = some (.ok ⟨"proj"⟩) ∧
    resolveProject
        ⟨[("proj", ⟨"proj"⟩)], [("p1", ["proj", "trim"]), ("p2", ["p1", "assemble"])]⟩
        1 ["proj", "trim"]
      = some (.ok ⟨"proj"⟩) :=
  project_resolution_transitive
    ⟨[("proj", ⟨"proj"⟩)], [("p1", ["proj", "trim"]), ("p2", ["p1", "assemble"])]⟩
    0 ⟨"p2", ["p1", "assemble"], ⟨"p1.assemble", 0⟩, []⟩
    "p1" "proj" ["trim"] ["assemble"] ⟨"proj"⟩
    rfl (by decide) (by decide) (by decide)

lemma get_ok_mem (m m1 : StackMemo) (key : String) (s1 : StageStack)
    (h : StageStack.get m key = .ok (m1, s1)) :
    key ≠ "" ∧ alookup m1.table key = some s1 := by
  unfold StageStack.get at h
  by_cases hk : key = ""
  · rw [if_pos hk] at h
    exact absurd h (by simp)
  · rw [if_neg hk] at h
    refine ⟨hk, ?_⟩
    rcases hl : alookup m.table key with _ | st <;> rw [hl] at h
    · obtain ⟨h1, h2⟩ := Prod.mk.injEq .. ▸ (Except.ok.injEq .. ▸ h)
      rw [← h1, ← h2]
      simp [alookup]
    · obtain ⟨h1, h2⟩ := Prod.mk.injEq .. ▸ (Except.ok.injEq .. ▸ h)
      rw [← h1, ← h2, hl]

lemma alookup_applyGet (m : StackMemo) (k' key : String) (s : StageStack)
    (h : alookup m.table key = some s) :
    alookup (applyGet m k').table key = some s := by
  unfold applyGet StageStack.get
  by_cases hk : k' = ""
  · rw [if_pos hk]
    exact h
  · rw [if_neg hk]
    rcases hl : alookup m.table k' with _ | st
    · by_cases hkey : key = k'
      · rw [hkey] at h
        rw [h] at hl
        exact absurd hl (by simp)
      · simpa [alookup, hkey] using h
    · exact h

lemma alookup_applyGets (ks : List String) :
    ∀ (m : StackMemo) (key : String) (s : StageStack),
      alookup m.table key = some s →
      alookup (applyGets m ks).table key = some s := by
  induction ks with
  | nil => intro m key s h; exact h
  | cons k' rest ih =>
    intro m key s h
    exact ih (applyGet m k') key s (alookup_applyGet m k' key s h)

/-- Claim C5: StageStack memoization identity — once a call
`StageStack.get m key` has produced the instance `s1`, every later
`get` of the same chain key within the same configuration lifetime
(after any interleaved sequence of other `get` calls) returns the
identical instance `s1` and leaves the memo table untouched, so at
most one StageStack instance exists per distinct chain key. -/
theorem stagestack_get_memoized (m m1 : StackMemo) (key : String)
    (s1 : StageStack) (ks : List String)
    (h : StageStack.get m key = .ok (m1, s1)) :
    StageStack.get (applyGets m1 ks) key = .ok (applyGets m1 ks, s1) := by
  obtain ⟨hne, hl⟩ := get_ok_mem m m1 key s1 h
  have hl' := alookup_applyGets ks m1 key s1 hl
  unfold StageStack.get
  rw [if_neg hne, hl']

/-- Witness for claim C5: the stack for `"a.b"` created on an empty
memo table is returned, identically, by a repeated `get` after an
interleaved `get` of another key. -/
theorem stagestack_get_memoized_witness :
    StageStack.get (applyGets ⟨[("a.b", ⟨"a.b", 0⟩)], 1⟩ ["c", "a.b"]) "a.b"
      = .ok (applyGets ⟨[("a.b", ⟨"a.b", 0⟩)], 1⟩ ["c", "a.b"], ⟨"a.b", 0⟩) :=
  stagestack_get_memoized ⟨[], 0⟩ ⟨[("a.b", ⟨"a.b", 0⟩)], 1⟩ "a.b" ⟨"a.b", 0⟩
    ["c", "a.b"] rfl

lemma get_ok_key (m m1 : StackMemo) (key : String) (s1 : StageStack)
    (hwf : m.WF) (h : StageStack.get m key = .ok (m1, s1)) :
    s1.key = key := by
  unfold StageStack.get at h
  by_cases hk : key = ""
  · rw [if_pos hk] at h
    exact absurd h (by simp)
  · rw [if_neg hk] at h
    rcases hl : alookup m.table key with _ | st <;> rw [hl] at h
    · obtain ⟨_, h2⟩ := Prod.mk.injEq .. ▸ (Except.ok.injEq .. ▸ h)
      rw [← h2]
    · obtain ⟨_, h2⟩ := Prod.mk.injEq .. ▸ (Except.ok.injEq .. ▸ h)
      rw [← h2]
      exact hwf key st hl

/-- Claim C10: Pipeline construction does not mutate the configured
stage-name list — the merge loop runs on a fresh copy — so after a
successful construction `stages` still equals the configured ordered
list and the backing StageStack's chain key is the dot-join of that
full list. -/
theorem init_preserves_stage_list (find : String → Option Stage)
    (memo : StackMemo) (nm : String) (cfg : List String)
    (memo' : StackMemo) (p : Pipeline)
    (hwf : memo.WF)
    (h : Pipeline.init find memo nm cfg = .ok (memo', p)) :
    p.stages = cfg ∧ p.stagestack.key = joinDot cfg := by
  unfold Pipeline.init at h
  rcases hg : StageStack.get memo (joinDot cfg) with e | ⟨m2, ss⟩ <;> rw [hg] at h
  · exact absurd h (by simp)
  · obtain ⟨_, h2⟩ := Prod.mk.injEq .. ▸ (Except.ok.injEq .. ▸ h)
    rw [← h2]
    exact ⟨rfl, get_ok_key memo m2 (joinDot cfg) ss hwf hg⟩

/-- Witness for claim C10: a pipeline constructed from `["a", "b"]` on
an empty (well-formed) memo table keeps `stages = ["a", "b"]` and its
stack's key is `"a.b"`. -/
theorem init_preserves_stage_list_witness :
    (⟨"p", ["a", "b"], ⟨"a.b", 0⟩, []⟩ : Pipeline).stages = ["a", "b"] ∧
    (⟨"p", ["a", "b"], ⟨"a.b", 0⟩, []⟩ : Pipeline).stagestack.key
      = joinDot ["a", "b"] :=
  init_preserves_stage_list (fun _ => none) ⟨[], 0⟩ "p" ["a", "b"]
    ⟨[("a.b", ⟨"a.b", 0⟩)], 1⟩ ⟨"p", ["a", "b"], ⟨"a.b", 0⟩, []⟩
    (fun _ _ hln => nomatch hln) rfl

/-- Claim C2 (refuted): counterexample — `"trim"` is registered neither
as a project nor as a pipeline in `exCfg`, yet constructing the
Pipeline `["trim", "assemble"]` succeeds (no configuration error at
construction time); the "must start with project" error only appears
when the `project` property is resolved. -/
theorem first_segment_error_not_raised_at_init :
    alookup exCfg.projects "trim" = none ∧
    alookup exCfg.pipelines "trim" = none ∧
    Pipeline.init exFind ⟨[], 0⟩ "p" ["trim", "assemble"] =
      .ok (⟨[("trim.assemble", ⟨"trim.assemble", 0⟩)], 1⟩,
           ⟨"p", ["trim", "assemble"], ⟨"trim.assemble", 0⟩,
            [("contigs.fa", "trim.assemble"), ("reads.fq", "trim")]⟩) ∧
    resolveProject exCfg 1 ["trim", "assemble"] =
      some (.error (.configError ["trim", "assemble"]
        "Pipeline must start with project")) := by
  exact ⟨rfl, rfl, rfl, rfl⟩

/-- Claim C2 (amended): for every chain whose key is nonempty,
construction succeeds even when the first stage name is registered
neither as a project nor as a pipeline; the configuration error for an
unresolved first segment is raised only when `Pipeline.project` is
resolved. -/
theorem first_segment_error_raised_at_project (find : String → Option Stage)
    (memo : StackMemo) (nm s0 : String) (rest : List String)
    (cfg : Config) (fuel : Nat)
    (hkey : joinDot (s0 :: rest) ≠ "")
    (hproj : alookup cfg.projects s0 = none)
    (hpipe : alookup cfg.pipelines s0 = none) :
    isOk (Pipeline.init find memo nm (s0 :: rest)) = true ∧
    resolveProject cfg (fuel + 1) (s0 :: rest) =
      some (.error (.configError (s0 :: rest)
        "Pipeline must start with project")) := by
  constructor
  · unfold Pipeline.init StageStack.get
    rw [if_neg hkey]
    rcases alookup memo.table (joinDot (s0 :: rest)) with _ | st <;> rfl
  · simp [resolveProject, hproj, hpipe]

/-- Witness for the amended claim C2 at the concrete chain
`["trim", "assemble"]` under `exCfg`. -/
theorem first_segment_error_raised_at_project_witness :
    isOk (Pipeline.init exFind ⟨[], 0⟩ "p" ["trim", "assemble"]) = true ∧
    resolveProject exCfg 1 ["trim", "assemble"] =
      some (.error (.configError ["trim", "assemble"]
        "Pipeline must start with project")) :=
  first_segment_error_raised_at_project exFind ⟨[], 0⟩ "p" "trim" ["assemble"]
    exCfg 0 (by decide) rfl rfl

end Ymp
